import Mathlib

/-!
Shallow embedding of the order-matching engine in `src/order_execution.py`
(class `OrderBook`): the data model (orders, accounts, trades, the per-ticker
order books and last-trade-price table), the operations `load_unmatched_orders`,
`save_unmatched_orders`, `get_best_price`, `add_order` and `match_orders`, and
theorems checking the specification's statements about them.

Python dictionaries (insertion-ordered, unique keys) are embedded as
association lists; Python numbers as `Int`; `datetime` timestamps as `Nat`
(with the ISO-8601 string codec abstracted as an encode/decode pair of
functions, see `save_unmatched_orders`); the external `AccountManager`
collaborator as a function from account ids to accounts together with a
pointwise update.
-/

namespace OrderMatching

/-- Lookup in an insertion-ordered association list (Python `d[k]` / `d.get(k)`):
the value at the first matching key. -/
def dictFind {α : Type} (d : List (String × α)) (k : String) : Option α :=
  match d with
  | [] => none
  | (k0, v0) :: rest => if k0 = k then some v0 else dictFind rest k

/-- Python `d.get(k, v)`: lookup with a default. -/
def dictGetD {α : Type} (d : List (String × α)) (k : String) (v : α) : α :=
  (dictFind d k).getD v

/-- Python `d[k] = v`: replace the value at an existing key in place
(preserving its position, as Python dicts do), else append the new key
at the end. -/
def dictSet {α : Type} (d : List (String × α)) (k : String) (v : α) : List (String × α) :=
  match d with
  | [] => [(k, v)]
  | (k0, v0) :: rest => if k0 = k then (k, v) :: rest else (k0, v0) :: dictSet rest k v

/-- Python `del d[k]`: drop the (unique) entry for `k`. -/
def dictErase {α : Type} (d : List (String × α)) (k : String) : List (String × α) :=
  match d with
  | [] => []
  | (k0, v0) :: rest => if k0 = k then rest else (k0, v0) :: dictErase rest k

/-- An order dict as built by the driver and stored in the book.
`price` is `none` when the Python dict carries `None` (market orders);
`timestamp` abstracts the `datetime` creation instant (only its ordering
and its serialization round-trip are ever used). -/
structure Order where
  account_id : Nat
  ticker : String
  action : String
  order_type : String
  quantity : Int
  price : Option Int
  timestamp : Nat
deriving DecidableEq, Repr

/-- An account as returned by the external `AccountManager.get_account`:
a balance and a positions dict (ticker -> share count). -/
structure Account where
  balance : Int
  positions : List (String × Int)
deriving DecidableEq, Repr

/-- Modelled from the spec: the `AccountManager` collaborator
(`get_account` / `update_account`) is external to `src/`; its contract
(§6 of the spec) is a total account store, embedded as a function from
account ids to accounts. -/
def AccountMgr : Type := Nat → Account

/-- `update_account(id, account)`: pointwise update of the account store. -/
def updateAccount (m : AccountMgr) (id : Nat) (a : Account) : AccountMgr :=
  fun i => if i = id then a else m i

/-- A record appended to the executed-trades log by `match_orders`.
The wall-clock `datetime.now()` timestamp the source adds is omitted:
no claim observes it. -/
structure Trade where
  ticker : String
  price : Int
  quantity : Int
  buy_account_id : Nat
  sell_account_id : Nat
deriving DecidableEq, Repr

/-- The `OrderBook` object's own state: the two per-ticker resting-order
dicts and the last-trade-price dict. -/
structure OrderBook where
  buy_orders : List (String × List Order)
  sell_orders : List (String × List Order)
  last_trade_price : List (String × Int)
deriving DecidableEq, Repr

/-- The whole system state a sequence of calls acts on: the book, the
external account store, and the executed-trades log. -/
structure Sys where
  book : OrderBook
  accounts : AccountMgr
  trades : List Trade

/-! ## Persistence: `save_unmatched_orders` / `load_unmatched_orders` -/

/-- An order as it appears in the JSON snapshot: same fields, with the
timestamp replaced by its ISO-8601 string. -/
structure SerOrder where
  account_id : Nat
  ticker : String
  action : String
  order_type : String
  quantity : Int
  price : Option Int
  timestamp : String
deriving DecidableEq, Repr

/-- `serialize_order` inside `save_unmatched_orders`: copy the order and
turn its timestamp into a string. `enc` abstracts `datetime.isoformat`. -/
def serialize_order (enc : Nat → String) (o : Order) : SerOrder :=
  { account_id := o.account_id, ticker := o.ticker, action := o.action,
    order_type := o.order_type, quantity := o.quantity, price := o.price,
    timestamp := enc o.timestamp }

/-- The timestamp conversion done per order in `load_unmatched_orders`:
`dec` abstracts `datetime.fromisoformat`. -/
def deserialize_order (dec : String → Nat) (so : SerOrder) : Order :=
  { account_id := so.account_id, ticker := so.ticker, action := so.action,
    order_type := so.order_type, quantity := so.quantity, price := so.price,
    timestamp := dec so.timestamp }

/-- The JSON document written by `save_unmatched_orders`. -/
structure SavedData where
  buy_orders : List (String × List SerOrder)
  sell_orders : List (String × List SerOrder)
deriving DecidableEq, Repr

/-- `save_unmatched_orders`: serialize both per-ticker dicts, every order's
timestamp stringified. -/
def save_unmatched_orders (enc : Nat → String) (bk : OrderBook) : SavedData :=
  { buy_orders := bk.buy_orders.map (fun kv => (kv.1, kv.2.map (serialize_order enc))),
    sell_orders := bk.sell_orders.map (fun kv => (kv.1, kv.2.map (serialize_order enc))) }

/-- `load_unmatched_orders` on an existing file: rebuild both dicts,
parsing every order's timestamp back. Returns the reconstructed
`(buy_orders, sell_orders)` pair. -/
def load_unmatched_orders (dec : String → Nat) (d : SavedData) :
    List (String × List Order) × List (String × List Order) :=
  (d.buy_orders.map (fun kv => (kv.1, kv.2.map (deserialize_order dec))),
   d.sell_orders.map (fun kv => (kv.1, kv.2.map (deserialize_order dec))))

/-! ## `get_best_price` -/

/-- Reading `o['price']` where the source assumes a limit order's price is
present (a `None` there would raise in Python; `0` is returned for the
unreachable missing case). -/
def priceOf (o : Order) : Int := o.price.getD 0

/-- Python `min(...)` over a list of prices (`none` on the empty list the
source never passes). -/
def listMin : List Int → Option Int
  | [] => none
  | x :: xs =>
    match listMin xs with
    | none => some x
    | some m => some (min x m)

/-- Python `max(...)` over a list of prices. -/
def listMax : List Int → Option Int
  | [] => none
  | x :: xs =>
    match listMax xs with
    | none => some x
    | some m => some (max x m)

/-- `get_best_price(action, ticker)`: minimum resting sell limit price for a
buy lookup, maximum resting buy limit price for a sell lookup, else the
last trade price, else `stock_info.get_initial_price(ticker)` (the external
`StockInfo` collaborator is the function `ip`). -/
def get_best_price (ip : String → Int) (bk : OrderBook) (action ticker : String) : Int :=
  let fallback := (dictFind bk.last_trade_price ticker).getD (ip ticker)
  if action = "buy" then
    match listMin (((dictGetD bk.sell_orders ticker []).filter
        (fun o => o.order_type == "limit")).map priceOf) with
    | some m => m
    | none => fallback
  else if action = "sell" then
    match listMax (((dictGetD bk.buy_orders ticker []).filter
        (fun o => o.order_type == "limit")).map priceOf) with
    | some m => m
    | none => fallback
  else fallback

/-! ## `add_order` -/

/-- The limit-price rejection test in `add_order`:
`order['price'] is None or order['price'] <= 0`. -/
def limitPriceBad : Option Int → Bool
  | none => true
  | some p => decide (p ≤ 0)

/-- `add_order(order, account_manager)`: validate, then append the order to
the tail of its side/ticker collection; returns the Python boolean result
together with the updated book. -/
def add_order (o : Order) (accs : AccountMgr) (bk : OrderBook) : Bool × OrderBook :=
  let account := accs o.account_id
  if o.quantity ≤ 0 then (false, bk)
  else if ¬ (o.order_type = "market" ∨ o.order_type = "limit") then (false, bk)
  else if o.order_type = "limit" ∧ limitPriceBad o.price then (false, bk)
  else if o.action = "sell" ∧ dictGetD account.positions o.ticker 0 < o.quantity then
    (false, bk)
  else
    let bk' :=
      if o.action = "buy" then
        { bk with buy_orders :=
            dictSet bk.buy_orders o.ticker (dictGetD bk.buy_orders o.ticker [] ++ [o]) }
      else if o.action = "sell" then
        { bk with sell_orders :=
            dictSet bk.sell_orders o.ticker (dictGetD bk.sell_orders o.ticker [] ++ [o]) }
      else bk
    (true, bk')

/-! ## `match_orders`: sorting -/

/-- The truthiness test Python applies to `o.get('price')` in the sort keys:
the price counts only when present and nonzero. -/
def truthyPrice (o : Order) : Option Int :=
  match o.price with
  | some p => if p = 0 then none else some p
  | none => none

/-- Buy-side secondary sort key: `-price` when the price is truthy, else
`float('inf')`; `none` stands for plus infinity. -/
def buyKey2 (o : Order) : Option Int :=
  (truthyPrice o).map (fun p => -p)

/-- Sell-side secondary sort key: the price when truthy, else `0`. -/
def sellKey2 (o : Order) : Int :=
  (truthyPrice o).getD 0

/-- Strict order on `Option Int` with `none` as plus infinity (the buy-side
key domain). -/
def ltOptTop : Option Int → Option Int → Bool
  | some a, some b => decide (a < b)
  | some _, none => true
  | none, _ => false

/-- The buy-side comparator: Python tuple order on
`(order_type != 'market', -price-or-inf, timestamp)`. -/
def buyLe (a b : Order) : Bool :=
  let t1 : Bool := a.order_type != "market"
  let t2 : Bool := b.order_type != "market"
  if t1 ≠ t2 then !t1
  else if buyKey2 a = buyKey2 b then decide (a.timestamp ≤ b.timestamp)
  else ltOptTop (buyKey2 a) (buyKey2 b)

/-- The sell-side comparator: Python tuple order on
`(order_type != 'market', price-or-zero, timestamp)`. -/
def sellLe (a b : Order) : Bool :=
  let t1 : Bool := a.order_type != "market"
  let t2 : Bool := b.order_type != "market"
  if t1 ≠ t2 then !t1
  else if sellKey2 a = sellKey2 b then decide (a.timestamp ≤ b.timestamp)
  else decide (sellKey2 a < sellKey2 b)

/-- Stable insertion into a sorted list: an element goes before the first
element it compares `le` to, so earlier elements keep their place among
equals (Python's `sorted` is stable). -/
def insertOrd (le : Order → Order → Bool) (o : Order) : List Order → List Order
  | [] => [o]
  | x :: xs => if le o x then o :: x :: xs else x :: insertOrd le o xs

/-- Stable insertion sort, the embedding of Python's stable `sorted`. -/
def sortOrders (le : Order → Order → Bool) : List Order → List Order
  | [] => []
  | x :: xs => insertOrd le x (sortOrders le xs)

/-! ## `match_orders`: the matching loop -/

/-- The per-pair execution-price determination inside `match_orders`
(lines 140-159): market/market uses the last trade price (skip when none),
market/limit the sell's price, limit/market the buy's price, limit/limit
the sell's price when the buy's price is at least it, anything else skips.
The source reads a limit order's `price` directly (raising on `None`);
here a missing limit price yields `none` (a skip), unreachable for orders
admitted by `add_order`. -/
def execPrice (lp : Option Int) (b so : Order) : Option Int :=
  if b.order_type = "market" ∧ so.order_type = "market" then lp
  else if b.order_type = "market" ∧ so.order_type = "limit" then so.price
  else if b.order_type = "limit" ∧ so.order_type = "market" then b.price
  else if b.order_type = "limit" ∧ so.order_type = "limit" then
    match b.price, so.price with
    | some bp, some sp => if bp ≥ sp then some sp else none
    | _, _ => none
  else none

/-- The inner `for sell_order in list(sell_orders)` scan for one buy order:
first sell candidate not from the same account whose pair determines an
execution price; returns its index and that price. -/
def scanSells (lp : Option Int) (b : Order) : List Order → Option (Nat × Int)
  | [] => none
  | so :: rest =>
    if b.account_id = so.account_id then
      (scanSells lp b rest).map (fun jp => (jp.1 + 1, jp.2))
    else
      match execPrice lp b so with
      | some p => some (0, p)
      | none => (scanSells lp b rest).map (fun jp => (jp.1 + 1, jp.2))

/-- The outer `for buy_order in list(buy_orders)` scan: the first buy order
for which the sell scan succeeds, with the found sell index and price. -/
def scanBuys (lp : Option Int) (sells : List Order) : List Order → Option (Nat × Nat × Int)
  | [] => none
  | b :: rest =>
    match scanSells lp b sells with
    | some jp => some (0, jp.1, jp.2)
    | none => (scanBuys lp sells rest).map (fun ijp => (ijp.1 + 1, ijp.2.1, ijp.2.2))

/-- One full pairing scan of the matching loop: the first eligible buy/sell
pair (by list position, buy-major) with its execution price. -/
def findPair (lp : Option Int) (buys sells : List Order) : Option (Nat × Nat × Int) :=
  scanBuys lp sells buys

/-- The mutable state of one `match_orders` run: the sorted working deques,
the whole last-trade-price dict, the account store and the trade log. -/
structure MState where
  buys : List Order
  sells : List Order
  ltp : List (String × Int)
  accounts : AccountMgr
  trades : List Trade

/-- The settlement of a selected pair: the buyer's account is updated, then
the seller's (position entry deleted when it hits zero), both quantities
drop by the executed amount, the last trade price is recorded and the
trade appended, and filled orders are removed. -/
def settleOk (ticker : String) (s : MState) (i j : Nat) (b so : Order) (p : Int) :
    MState :=
  let q := min b.quantity so.quantity
  let buyer := s.accounts b.account_id
  let cost := q * p
  let buyer' : Account :=
    { balance := buyer.balance - cost,
      positions := dictSet buyer.positions ticker
        (dictGetD buyer.positions ticker 0 + q) }
  let acc1 := updateAccount s.accounts b.account_id buyer'
  let seller := acc1 so.account_id
  let spos1 := dictSet seller.positions ticker
    (dictGetD seller.positions ticker 0 - q)
  let spos2 := if dictGetD spos1 ticker 0 = 0 then dictErase spos1 ticker else spos1
  let seller' : Account := { balance := seller.balance + cost, positions := spos2 }
  let acc2 := updateAccount acc1 so.account_id seller'
  let b' := { b with quantity := b.quantity - q }
  let so' := { so with quantity := so.quantity - q }
  { buys := if b'.quantity = 0 then s.buys.eraseIdx i else s.buys.set i b',
    sells := if so'.quantity = 0 then s.sells.eraseIdx j else s.sells.set j so',
    ltp := dictSet s.ltp ticker p,
    accounts := acc2,
    trades := s.trades ++ [⟨ticker, p, q, b.account_id, so.account_id⟩] }

/-- The body of the matching loop once a pair `(i, j)` with execution price
`p` has been selected: when the buyer's balance covers the cost, settle;
otherwise drop the buy order from the book and touch nothing else. -/
def doStep (ticker : String) (s : MState) (i j : Nat) (p : Int) : MState :=
  match s.buys[i]?, s.sells[j]? with
  | some b, some so =>
    if (s.accounts b.account_id).balance ≥ min b.quantity so.quantity * p then
      settleOk ticker s i j b so p
    else
      { s with buys := s.buys.eraseIdx i }
  | _, _ => s

/-- The `while buy_orders and sell_orders` loop, fuel-indexed: stop when a
side is empty or the pairing scan finds nothing, else perform one step and
repeat. Each step removes at least one order, so fuel
`buys.length + sells.length` always reaches the loop's own exit. -/
def matchLoop (ticker : String) : Nat → MState → MState
  | 0, s => s
  | fuel + 1, s =>
    if s.buys = [] ∨ s.sells = [] then s
    else
      match findPair (dictFind s.ltp ticker) s.buys s.sells with
      | none => s
      | some (i, j, p) => matchLoop ticker fuel (doStep ticker s i j p)

/-- `match_orders(ticker, account_manager)`: sort both sides of the ticker's
book, run the matching loop, and write the remaining deques (and the
updated price table, accounts and trade log) back. -/
def match_orders (ticker : String) (sys : Sys) : Sys :=
  let buys := sortOrders buyLe (dictGetD sys.book.buy_orders ticker [])
  let sells := sortOrders sellLe (dictGetD sys.book.sell_orders ticker [])
  let s0 : MState :=
    ⟨buys, sells, sys.book.last_trade_price, sys.accounts, sys.trades⟩
  let s1 := matchLoop ticker (buys.length + sells.length) s0
  { book := { buy_orders := dictSet sys.book.buy_orders ticker s1.buys,
              sell_orders := dictSet sys.book.sell_orders ticker s1.sells,
              last_trade_price := s1.ltp },
    accounts := s1.accounts,
    trades := s1.trades }

/-! ## Call sequences (for the temporal claims) -/

/-- One external call: submit an order or run matching for a ticker. -/
inductive Op where
  | add (o : Order)
  | matchT (ticker : String)

/-- Apply one call to the system state (the boolean result of `add_order`
is reported to the caller and does not feed back into the state). -/
def runOp (sys : Sys) : Op → Sys
  | Op.add o => { sys with book := (add_order o sys.accounts sys.book).2 }
  | Op.matchT t => match_orders t sys

/-- Run a sequence of calls. -/
def run (sys : Sys) (ops : List Op) : Sys :=
  ops.foldl runOp sys

/-! ## Helper lemmas -/

theorem listMin_eq_none {l : List Int} : listMin l = none ↔ l = [] := by
  cases l with
  | nil => simp [listMin]
  | cons a l => rw [listMin]; cases listMin l <;> simp

theorem listMax_eq_none {l : List Int} : listMax l = none ↔ l = [] := by
  cases l with
  | nil => simp [listMax]
  | cons a l => rw [listMax]; cases listMax l <;> simp

theorem listMin_spec {l : List Int} {m : Int} (h : listMin l = some m) :
    m ∈ l ∧ ∀ x ∈ l, m ≤ x := by
  induction l generalizing m with
  | nil => simp [listMin] at h
  | cons a l ih =>
    rw [listMin] at h
    cases hl : listMin l with
    | none =>
      rw [hl] at h
      simp at h
      subst h
      have : l = [] := listMin_eq_none.mp hl
      subst this
      simp
    | some m0 =>
      rw [hl] at h
      simp at h
      have ihl := ih hl
      constructor
      · rcases min_choice a m0 with hc | hc
        · rw [← h, hc]; simp
        · rw [← h, hc]; simp [ihl.1]
      · intro x hx
        rcases List.mem_cons.mp hx with hx | hx
        · rw [← h, hx]; exact min_le_left a m0
        · rw [← h]; exact le_trans (min_le_right a m0) (ihl.2 x hx)

theorem listMax_spec {l : List Int} {m : Int} (h : listMax l = some m) :
    m ∈ l ∧ ∀ x ∈ l, x ≤ m := by
  induction l generalizing m with
  | nil => simp [listMax] at h
  | cons a l ih =>
    rw [listMax] at h
    cases hl : listMax l with
    | none =>
      rw [hl] at h
      simp at h
      subst h
      have : l = [] := listMax_eq_none.mp hl
      subst this
      simp
    | some m0 =>
      rw [hl] at h
      simp at h
      have ihl := ih hl
      constructor
      · rcases max_choice a m0 with hc | hc
        · rw [← h, hc]; simp
        · rw [← h, hc]; simp [ihl.1]
      · intro x hx
        rcases List.mem_cons.mp hx with hx | hx
        · rw [← h, hx]; exact le_max_left a m0
        · rw [← h]; exact le_trans (ihl.2 x hx) (le_max_right a m0)

theorem dictFind_dictSet_self {α : Type} (d : List (String × α)) (k : String) (v : α) :
    dictFind (dictSet d k v) k = some v := by
  induction d with
  | nil => simp [dictFind, dictSet]
  | cons kv rest ih =>
    obtain ⟨k0, v0⟩ := kv
    rw [dictSet]
    by_cases h : k0 = k
    · simp [h, dictFind]
    · simp [h, dictFind, ih]

theorem scanSells_eq_some {lp : Option Int} {b : Order} {sells : List Order}
    {j : Nat} {p : Int} (h : scanSells lp b sells = some (j, p)) :
    ∃ so, sells[j]? = some so ∧ b.account_id ≠ so.account_id ∧
      execPrice lp b so = some p := by
  induction sells generalizing j with
  | nil => simp [scanSells] at h
  | cons so rest ih =>
    rw [scanSells] at h
    by_cases hacc : b.account_id = so.account_id
    · rw [if_pos hacc] at h
      rcases Option.map_eq_some'.mp h with ⟨⟨j0, p0⟩, hrec, heq⟩
      obtain ⟨rfl, rfl⟩ : j = j0 + 1 ∧ p = p0 := by
        constructor <;> simp_all
      rcases ih hrec with ⟨so', h1, h2, h3⟩
      exact ⟨so', by simpa using h1, h2, h3⟩
    · rw [if_neg hacc] at h
      cases hep : execPrice lp b so with
      | some p0 =>
        rw [hep] at h
        simp at h
        obtain ⟨rfl, rfl⟩ := h
        exact ⟨so, by simp, hacc, hep⟩
      | none =>
        rw [hep] at h
        rcases Option.map_eq_some'.mp h with ⟨⟨j0, p0⟩, hrec, heq⟩
        obtain ⟨rfl, rfl⟩ : j = j0 + 1 ∧ p = p0 := by
          constructor <;> simp_all
        rcases ih hrec with ⟨so', h1, h2, h3⟩
        exact ⟨so', by simpa using h1, h2, h3⟩

theorem scanSells_eq_none {lp : Option Int} {b : Order} {sells : List Order}
    (h : scanSells lp b sells = none) :
    ∀ so ∈ sells, b.account_id = so.account_id ∨ execPrice lp b so = none := by
  induction sells with
  | nil => simp
  | cons so rest ih =>
    rw [scanSells] at h
    intro so' hso'
    by_cases hacc : b.account_id = so.account_id
    · rw [if_pos hacc] at h
      have hrec := Option.map_eq_none'.mp h
      rcases List.mem_cons.mp hso' with rfl | hmem
      · exact Or.inl hacc
      · exact ih hrec so' hmem
    · rw [if_neg hacc] at h
      cases hep : execPrice lp b so with
      | some p0 => rw [hep] at h; simp at h
      | none =>
        rw [hep] at h
        have hrec := Option.map_eq_none'.mp h
        rcases List.mem_cons.mp hso' with rfl | hmem
        · exact Or.inr hep
        · exact ih hrec so' hmem

theorem findPair_eq_some {lp : Option Int} {buys sells : List Order}
    {i j : Nat} {p : Int} (h : findPair lp buys sells = some (i, j, p)) :
    ∃ b so, buys[i]? = some b ∧ sells[j]? = some so ∧
      b.account_id ≠ so.account_id ∧ execPrice lp b so = some p := by
  rw [findPair] at h
  induction buys generalizing i with
  | nil => simp [scanBuys] at h
  | cons b rest ih =>
    rw [scanBuys] at h
    cases hs : scanSells lp b sells with
    | some jp =>
      rw [hs] at h
      simp at h
      obtain ⟨rfl, rfl, rfl⟩ := h
      rcases scanSells_eq_some hs with ⟨so, h1, h2, h3⟩
      exact ⟨b, so, by simp, h1, h2, h3⟩
    | none =>
      rw [hs] at h
      rcases Option.map_eq_some'.mp h with ⟨⟨i0, j0, p0⟩, hrec, heq⟩
      obtain ⟨rfl, rfl, rfl⟩ : i = i0 + 1 ∧ j = j0 ∧ p = p0 := by
        refine ⟨?_, ?_, ?_⟩ <;> simp_all
      rcases ih hrec with ⟨b', so, h1, h2, h3, h4⟩
      exact ⟨b', so, by simpa using h1, h2, h3, h4⟩

theorem findPair_eq_none {lp : Option Int} {buys sells : List Order}
    (h : findPair lp buys sells = none) :
    ∀ b ∈ buys, ∀ so ∈ sells,
      b.account_id = so.account_id ∨ execPrice lp b so = none := by
  rw [findPair] at h
  induction buys with
  | nil => simp
  | cons b rest ih =>
    rw [scanBuys] at h
    intro b' hb' so hso
    cases hs : scanSells lp b sells with
    | some jp => rw [hs] at h; simp at h
    | none =>
      rw [hs] at h
      have hrec := Option.map_eq_none'.mp h
      rcases List.mem_cons.mp hb' with rfl | hmem
      · exact scanSells_eq_none hs so hso
      · exact ih hrec b' hmem so hso

theorem doStep_eq {ticker : String} {s : MState} {i j : Nat} {p : Int}
    {b so : Order} (hb : s.buys[i]? = some b) (hso : s.sells[j]? = some so) :
    doStep ticker s i j p =
      if (s.accounts b.account_id).balance ≥ min b.quantity so.quantity * p then
        settleOk ticker s i j b so p
      else
        { s with buys := s.buys.eraseIdx i } := by
  unfold doStep
  rw [hb, hso]

theorem settleOk_buys {ticker : String} {s : MState} {i j : Nat}
    {b so : Order} {p : Int} :
    (settleOk ticker s i j b so p).buys =
      if b.quantity - min b.quantity so.quantity = 0 then s.buys.eraseIdx i
      else s.buys.set i { b with quantity := b.quantity - min b.quantity so.quantity } :=
  rfl

theorem settleOk_sells {ticker : String} {s : MState} {i j : Nat}
    {b so : Order} {p : Int} :
    (settleOk ticker s i j b so p).sells =
      if so.quantity - min b.quantity so.quantity = 0 then s.sells.eraseIdx j
      else s.sells.set j { so with quantity := so.quantity - min b.quantity so.quantity } :=
  rfl

theorem settleOk_trades {ticker : String} {s : MState} {i j : Nat}
    {b so : Order} {p : Int} :
    (settleOk ticker s i j b so p).trades =
      s.trades ++ [⟨ticker, p, min b.quantity so.quantity,
        b.account_id, so.account_id⟩] :=
  rfl

theorem doStep_length {ticker : String} {s : MState} {i j : Nat} {p : Int}
    {b so : Order} (hb : s.buys[i]? = some b) (hso : s.sells[j]? = some so) :
    (doStep ticker s i j p).buys.length + (doStep ticker s i j p).sells.length <
      s.buys.length + s.sells.length := by
  have hi : i < s.buys.length := (List.getElem?_eq_some.mp hb).1
  have hj : j < s.sells.length := (List.getElem?_eq_some.mp hso).1
  have hep : (s.buys.eraseIdx i).length = s.buys.length - 1 :=
    List.length_eraseIdx_of_lt hi
  have hes : (s.sells.eraseIdx j).length = s.sells.length - 1 :=
    List.length_eraseIdx_of_lt hj
  rw [doStep_eq hb hso]
  by_cases hbal : (s.accounts b.account_id).balance ≥ min b.quantity so.quantity * p
  · rw [if_pos hbal, settleOk_buys, settleOk_sells]
    have hsle : (if so.quantity - min b.quantity so.quantity = 0 then s.sells.eraseIdx j
        else s.sells.set j
          { so with quantity := so.quantity - min b.quantity so.quantity }).length
        ≤ s.sells.length := by
      split
      · exact List.length_eraseIdx_le s.sells j
      · simp
    have hble : (if b.quantity - min b.quantity so.quantity = 0 then s.buys.eraseIdx i
        else s.buys.set i
          { b with quantity := b.quantity - min b.quantity so.quantity }).length
        ≤ s.buys.length := by
      split
      · exact List.length_eraseIdx_le s.buys i
      · simp
    rcases min_choice b.quantity so.quantity with hc | hc
    · have hcond : b.quantity - min b.quantity so.quantity = 0 := by
        rw [hc]; exact sub_self b.quantity
      rw [if_pos hcond, hep]
      omega
    · have hcond : so.quantity - min b.quantity so.quantity = 0 := by
        rw [hc]; exact sub_self so.quantity
      rw [if_pos hcond, hes]
      omega
  · rw [if_neg hbal]
    simp only [hep]
    omega

/-- The loop's own exit condition: a side is empty or the pairing scan
finds nothing. -/
def noPairState (ticker : String) (s : MState) : Prop :=
  s.buys = [] ∨ s.sells = [] ∨ findPair (dictFind s.ltp ticker) s.buys s.sells = none

theorem matchLoop_eq_self {ticker : String} {s : MState} (fuel : Nat)
    (h : noPairState ticker s) : matchLoop ticker fuel s = s := by
  cases fuel with
  | zero => rfl
  | succ n =>
    rw [matchLoop]
    rcases h with h | h | h
    · rw [if_pos (Or.inl h)]
    · rw [if_pos (Or.inr h)]
    · by_cases he : s.buys = [] ∨ s.sells = []
      · rw [if_pos he]
      · rw [if_neg he, h]

theorem matchLoop_noPair {ticker : String} (fuel : Nat) :
    ∀ s : MState, s.buys.length + s.sells.length ≤ fuel →
      noPairState ticker (matchLoop ticker fuel s) := by
  induction fuel with
  | zero =>
    intro s hlen
    have : s.buys = [] := by
      cases hb : s.buys with
      | nil => rfl
      | cons x xs => rw [hb] at hlen; simp at hlen
    rw [matchLoop]
    exact Or.inl this
  | succ n ih =>
    intro s hlen
    rw [matchLoop]
    by_cases he : s.buys = [] ∨ s.sells = []
    · rw [if_pos he]
      rcases he with he | he
      · exact Or.inl he
      · exact Or.inr (Or.inl he)
    · rw [if_neg he]
      cases hf : findPair (dictFind s.ltp ticker) s.buys s.sells with
      | none => exact Or.inr (Or.inr hf)
      | some ijp =>
        obtain ⟨i, j, p⟩ := ijp
        rcases findPair_eq_some hf with ⟨b, so, hb, hso, _, _⟩
        have := @doStep_length ticker _ i j p _ _ hb hso
        exact ih _ (by omega)

theorem matchLoop_fuel {ticker : String} (fuel : Nat) :
    ∀ (s : MState) (extra : Nat), s.buys.length + s.sells.length ≤ fuel →
      matchLoop ticker (fuel + extra) s = matchLoop ticker fuel s := by
  induction fuel with
  | zero =>
    intro s extra hlen
    have hb : s.buys = [] := by
      cases hb : s.buys with
      | nil => rfl
      | cons x xs => rw [hb] at hlen; simp at hlen
    rw [matchLoop_eq_self (0 + extra) (Or.inl hb)]
    rfl
  | succ n ih =>
    intro s extra hlen
    have hrw : n + 1 + extra = (n + extra) + 1 := by omega
    rw [hrw, matchLoop, matchLoop]
    by_cases he : s.buys = [] ∨ s.sells = []
    · rw [if_pos he, if_pos he]
    · rw [if_neg he, if_neg he]
      cases hf : findPair (dictFind s.ltp ticker) s.buys s.sells with
      | none => rfl
      | some ijp =>
        obtain ⟨i, j, p⟩ := ijp
        rcases findPair_eq_some hf with ⟨b, so, hb, hso, _, _⟩
        have := @doStep_length ticker _ i j p _ _ hb hso
        exact ih _ extra (by omega)

theorem doStep_buys_none {ticker : String} {s : MState} {i j : Nat} {p : Int}
    (hb : s.buys[i]? = none) : doStep ticker s i j p = s := by
  unfold doStep
  rw [hb]

theorem doStep_sells_none {ticker : String} {s : MState} {i j : Nat} {p : Int}
    (hso : s.sells[j]? = none) : doStep ticker s i j p = s := by
  unfold doStep
  rw [hso]
  cases s.buys[i]? <;> rfl

theorem doStep_trades {ticker : String} {s : MState} {i j : Nat} {p : Int}
    {t : Trade} (ht : t ∈ (doStep ticker s i j p).trades) :
    t ∈ s.trades ∨ ∃ b so, s.buys[i]? = some b ∧ s.sells[j]? = some so ∧
      t.buy_account_id = b.account_id ∧ t.sell_account_id = so.account_id := by
  cases hb : s.buys[i]? with
  | none => rw [doStep_buys_none hb] at ht; exact Or.inl ht
  | some b =>
    cases hso : s.sells[j]? with
    | none => rw [doStep_sells_none hso] at ht; exact Or.inl ht
    | some so =>
      rw [doStep_eq hb hso] at ht
      by_cases hbal : (s.accounts b.account_id).balance ≥
          min b.quantity so.quantity * p
      · rw [if_pos hbal] at ht
        rw [settleOk_trades] at ht
        rcases List.mem_append.mp ht with hmem | hmem
        · exact Or.inl hmem
        · simp at hmem
          refine Or.inr ⟨b, so, ?_, ?_, by rw [hmem], by rw [hmem]⟩ <;> simp_all
      · rw [if_neg hbal] at ht
        exact Or.inl ht

theorem matchLoop_trades {ticker : String} (fuel : Nat) :
    ∀ (s : MState) (t : Trade), t ∈ (matchLoop ticker fuel s).trades →
      t ∈ s.trades ∨ t.buy_account_id ≠ t.sell_account_id := by
  induction fuel with
  | zero => intro s t ht; exact Or.inl ht
  | succ n ih =>
    intro s t ht
    rw [matchLoop] at ht
    by_cases he : s.buys = [] ∨ s.sells = []
    · rw [if_pos he] at ht; exact Or.inl ht
    · rw [if_neg he] at ht
      cases hf : findPair (dictFind s.ltp ticker) s.buys s.sells with
      | none => rw [hf] at ht; exact Or.inl ht
      | some ijp =>
        obtain ⟨i, j, p⟩ := ijp
        rw [hf] at ht
        rcases ih _ t ht with hmem | hok
        · rcases doStep_trades hmem with hmem' | ⟨b, so, hb, hso, hbid, hsid⟩
          · exact Or.inl hmem'
          · rcases findPair_eq_some hf with ⟨b', so', hb', hso', hne, _⟩
            rw [hb'] at hb
            rw [hso'] at hso
            obtain rfl : b' = b := by injection hb
            obtain rfl : so' = so := by injection hso
            exact Or.inr (by rw [hbid, hsid]; exact hne)
        · exact Or.inr hok

theorem match_orders_trades {ticker : String} {sys : Sys} {t : Trade}
    (ht : t ∈ (match_orders ticker sys).trades) :
    t ∈ sys.trades ∨ t.buy_account_id ≠ t.sell_account_id := by
  unfold match_orders at ht
  exact matchLoop_trades _ _ t ht

theorem run_trades {ops : List Op} :
    ∀ {sys : Sys} {t : Trade}, t ∈ (run sys ops).trades →
      t ∈ sys.trades ∨ t.buy_account_id ≠ t.sell_account_id := by
  induction ops with
  | nil => intro sys t ht; exact Or.inl ht
  | cons op rest ih =>
    intro sys t ht
    rw [run, List.foldl_cons] at ht
    rcases ih (by rw [run]; exact ht) with hmem | hok
    · cases op with
      | add o => exact Or.inl hmem
      | matchT tk => exact match_orders_trades hmem
    · exact Or.inr hok

/-- Total resting quantity of a side. -/
def sumQty (l : List Order) : Int :=
  (l.map (fun o => o.quantity)).sum

theorem sumQty_set {l : List Order} {i : Nat} {b x : Order}
    (h : l[i]? = some b) :
    sumQty (l.set i x) = sumQty l - b.quantity + x.quantity := by
  induction l generalizing i with
  | nil => simp at h
  | cons a rest ih =>
    cases i with
    | zero =>
      simp at h
      subst h
      simp [sumQty]
      ring
    | succ n =>
      simp at h
      have := ih h
      simp [sumQty] at this ⊢
      omega

theorem sumQty_eraseIdx {l : List Order} {i : Nat} {b : Order}
    (h : l[i]? = some b) :
    sumQty (l.eraseIdx i) = sumQty l - b.quantity := by
  induction l generalizing i with
  | nil => simp at h
  | cons a rest ih =>
    cases i with
    | zero =>
      simp at h
      subst h
      simp [sumQty]
    | succ n =>
      simp at h
      have := ih h
      simp [List.eraseIdx_cons_succ, sumQty] at this ⊢
      omega

theorem noPair_noCross {ticker : String} {s : MState} (h : noPairState ticker s) :
    ∀ b ∈ s.buys, ∀ so ∈ s.sells, b.account_id ≠ so.account_id →
      b.order_type = "limit" → so.order_type = "limit" →
      ∀ bp sp, b.price = some bp → so.price = some sp → bp < sp := by
  intro b hbmem so hsmem hne hbt hst bp sp hbp hsp
  rcases h with h | h | h
  · rw [h] at hbmem; simp at hbmem
  · rw [h] at hsmem; simp at hsmem
  · rcases findPair_eq_none h b hbmem so hsmem with hacc | hep
    · exact absurd hacc hne
    · rw [execPrice, hbt, hst, hbp, hsp] at hep
      simp at hep
      omega

theorem dictGetD_dictSet_self {α : Type} (d : List (String × α)) (k : String)
    (v w : α) : dictGetD (dictSet d k v) k w = v := by
  rw [dictGetD, dictFind_dictSet_self]
  rfl

theorem limitPriceBad_iff {op : Option Int} :
    limitPriceBad op = true ↔ op = none ∨ ∃ p, op = some p ∧ p ≤ 0 := by
  cases op with
  | none => simp [limitPriceBad]
  | some p => simp [limitPriceBad]

theorem deserialize_serialize {enc : Nat → String} {dec : String → Nat}
    (h : ∀ n, dec (enc n) = n) (o : Order) :
    deserialize_order dec (serialize_order enc o) = o := by
  cases o
  simp [serialize_order, deserialize_order, h]

theorem execPrice_eq_some {lp : Option Int} {b so : Order} {p : Int}
    (h : execPrice lp b so = some p) :
    (b.order_type = "market" ∧ so.order_type = "market" ∧ lp = some p) ∨
    (b.order_type = "market" ∧ so.order_type = "limit" ∧ so.price = some p) ∨
    (b.order_type = "limit" ∧ so.order_type = "market" ∧ b.price = some p) ∨
    (b.order_type = "limit" ∧ so.order_type = "limit" ∧ so.price = some p ∧
      ∃ bp, b.price = some bp ∧ p ≤ bp) := by
  unfold execPrice at h
  split_ifs at h with h1 h2 h3 h4
  · exact Or.inl ⟨h1.1, h1.2, h⟩
  · exact Or.inr (Or.inl ⟨h2.1, h2.2, h⟩)
  · exact Or.inr (Or.inr (Or.inl ⟨h3.1, h3.2, h⟩))
  · cases hbp : b.price with
    | none => rw [hbp] at h; simp at h
    | some bp =>
      cases hsp : so.price with
      | none => rw [hbp, hsp] at h; simp at h
      | some sp =>
        rw [hbp, hsp] at h
        have h' : (if bp ≥ sp then some sp else none) = some p := h
        by_cases hge : bp ≥ sp
        · rw [if_pos hge] at h'
          have hpe : sp = p := by injection h'
          refine Or.inr (Or.inr (Or.inr ⟨h4.1, h4.2, by rw [hpe], bp, rfl, by omega⟩))
        · rw [if_neg hge] at h'
          simp at h'

/-! ## Concrete example data for witnesses and counterexamples -/

/-- Order constructor shorthand for the concrete examples. -/
def mkOrder (id : Nat) (act ty : String) (q : Int) (p : Option Int) (ts : Nat) :
    Order :=
  ⟨id, "XYZ", act, ty, q, p, ts⟩

/-- Two well-funded accounts holding 100 XYZ shares each. -/
def accsEx : AccountMgr := fun i =>
  if i = 0 then ⟨1000000, [("XYZ", 100)]⟩
  else if i = 1 then ⟨1000000, [("XYZ", 100)]⟩
  else ⟨0, []⟩

/-- Account 0 holds only 100 in cash; account 1 is well funded. -/
def accsPoorEx : AccountMgr := fun i =>
  if i = 0 then ⟨100, []⟩ else ⟨1000000, [("XYZ", 100)]⟩

def exBuys : List Order := [mkOrder 0 "buy" "limit" 10 (some 101) 0]

def exSells : List Order := [mkOrder 1 "sell" "limit" 10 (some 100) 1]

def c3sys : Sys := ⟨⟨[], [], []⟩, accsEx, []⟩

def c3ops : List Op :=
  [Op.add (mkOrder 0 "buy" "limit" 10 (some 100) 0),
   Op.add (mkOrder 1 "sell" "limit" 10 (some 100) 1),
   Op.matchT "XYZ"]

def c4state : MState :=
  ⟨[mkOrder 0 "buy" "limit" 10 (some 50) 0],
   [mkOrder 1 "sell" "limit" 10 (some 50) 1], [], accsPoorEx, []⟩

def c5state : MState :=
  ⟨[mkOrder 0 "buy" "limit" 5 (some 101) 0],
   [mkOrder 1 "sell" "limit" 10 (some 100) 1], [], accsEx, []⟩

/-! ## Claims -/

/-- C1: for every eligible buy/sell pair selected by the pairing scan of
`match_orders`, the execution price is determined by the order-type
combination exactly as specified: market/market uses the recorded last
trade price (a pair with none recorded is never selected);
market-buy/limit-sell uses the sell's limit price; limit-buy/market-sell
uses the buy's limit price; limit/limit uses the sell's limit price and
only when the buy's limit price is at least the sell's. -/
theorem C1_execution_price (lp : Option Int) (buys sells : List Order)
    (i j : Nat) (p : Int) (h : findPair lp buys sells = some (i, j, p)) :
    ∃ b so, buys[i]? = some b ∧ sells[j]? = some so ∧
      b.account_id ≠ so.account_id ∧
      ((b.order_type = "market" ∧ so.order_type = "market" ∧ lp = some p) ∨
       (b.order_type = "market" ∧ so.order_type = "limit" ∧ so.price = some p) ∨
       (b.order_type = "limit" ∧ so.order_type = "market" ∧ b.price = some p) ∨
       (b.order_type = "limit" ∧ so.order_type = "limit" ∧ so.price = some p ∧
         ∃ bp, b.price = some bp ∧ p ≤ bp)) := by
  rcases findPair_eq_some h with ⟨b, so, hb, hso, hne, hep⟩
  exact ⟨b, so, hb, hso, hne, execPrice_eq_some hep⟩

/-- Witness for C1: a concrete crossed limit/limit pair is selected at the
sell's limit price 100, below the buy's limit 101. -/
theorem C1_witness :
    findPair none exBuys exSells = some (0, 0, 100) ∧
    (∃ b so, exBuys[0]? = some b ∧ exSells[0]? = some so ∧
      b.account_id ≠ so.account_id ∧
      ((b.order_type = "market" ∧ so.order_type = "market" ∧
          (none : Option Int) = some 100) ∨
       (b.order_type = "market" ∧ so.order_type = "limit" ∧ so.price = some 100) ∨
       (b.order_type = "limit" ∧ so.order_type = "market" ∧ b.price = some 100) ∨
       (b.order_type = "limit" ∧ so.order_type = "limit" ∧ so.price = some 100 ∧
         ∃ bp, b.price = some bp ∧ 100 ≤ bp))) :=
  ⟨by decide, C1_execution_price none exBuys exSells 0 0 100 (by decide)⟩

/-- C3: along any sequence of `add_order` and `match_orders` calls from any
starting state whose trade log has no self-trade, no trade record with
`buy_account_id = sell_account_id` is ever produced: `match_orders` skips
every same-account pair. -/
theorem C3_no_self_trade (sys : Sys) (ops : List Op)
    (h : ∀ t ∈ sys.trades, t.buy_account_id ≠ t.sell_account_id) :
    ∀ t ∈ (run sys ops).trades, t.buy_account_id ≠ t.sell_account_id := by
  intro t ht
  rcases run_trades ht with hmem | hok
  · exact h t hmem
  · exact hok

/-- Witness for C3: a two-order session that executes one real trade. -/
theorem C3_witness :
    (∀ t ∈ c3sys.trades, t.buy_account_id ≠ t.sell_account_id) ∧
    (∀ t ∈ (run c3sys c3ops).trades, t.buy_account_id ≠ t.sell_account_id) :=
  ⟨by decide, C3_no_self_trade c3sys c3ops (by decide)⟩

/-- C4: when the selected pair's buyer cannot cover
`exec_quantity * execution_price`, the attempt fails atomically: accounts,
trade log, last-trade-price table and the sell side are all untouched, the
buy order alone is removed from the book, and the matching loop carries on
with the remaining orders. -/
theorem C4_insufficient_balance (ticker : String) (s : MState) (i j : Nat)
    (p : Int) (b so : Order)
    (hf : findPair (dictFind s.ltp ticker) s.buys s.sells = some (i, j, p))
    (hb : s.buys[i]? = some b) (hso : s.sells[j]? = some so)
    (hbal : (s.accounts b.account_id).balance < min b.quantity so.quantity * p) :
    doStep ticker s i j p = { s with buys := s.buys.eraseIdx i } ∧
    (doStep ticker s i j p).accounts = s.accounts ∧
    (doStep ticker s i j p).trades = s.trades ∧
    (doStep ticker s i j p).ltp = s.ltp ∧
    (doStep ticker s i j p).sells = s.sells ∧
    ∀ fuel, matchLoop ticker (fuel + 1) s =
      matchLoop ticker fuel (doStep ticker s i j p) := by
  have hne : ¬ (s.accounts b.account_id).balance ≥ min b.quantity so.quantity * p :=
    not_le.mpr hbal
  have hd : doStep ticker s i j p = { s with buys := s.buys.eraseIdx i } := by
    rw [doStep_eq hb hso, if_neg hne]
  refine ⟨hd, by rw [hd], by rw [hd], by rw [hd], by rw [hd], ?_⟩
  intro fuel
  have hbne : s.buys ≠ [] := by
    intro hc; rw [hc] at hb; simp at hb
  have hsne : s.sells ≠ [] := by
    intro hc; rw [hc] at hso; simp at hso
  rw [matchLoop, if_neg (by simp [hbne, hsne]), hf]

/-- Witness for C4: scenario 4 of the spec, a buyer with balance 100 facing
a 500-cost match; the step only erases the buy order. -/
theorem C4_witness :
    findPair (dictFind c4state.ltp "XYZ") c4state.buys c4state.sells =
      some (0, 0, 50) ∧
    (c4state.accounts (mkOrder 0 "buy" "limit" 10 (some 50) 0).account_id).balance <
      min (mkOrder 0 "buy" "limit" 10 (some 50) 0).quantity
        (mkOrder 1 "sell" "limit" 10 (some 50) 1).quantity * 50 ∧
    doStep "XYZ" c4state 0 0 50 = { c4state with buys := c4state.buys.eraseIdx 0 } :=
  ⟨by decide, by decide,
    (C4_insufficient_balance "XYZ" c4state 0 0 50
      (mkOrder 0 "buy" "limit" 10 (some 50) 0)
      (mkOrder 1 "sell" "limit" 10 (some 50) 1)
      (by decide) (by decide) (by decide) (by decide)).1⟩

/-- C5: a successfully settled pair trades exactly
`min(pre-match buy.quantity, pre-match sell.quantity)` shares; each order's
quantity drops by that amount, an order is removed from its side exactly
when its quantity reaches zero, and the two sides' total resting quantity
drops by exactly twice the executed quantity. -/
theorem C5_trade_quantities (ticker : String) (s : MState) (i j : Nat)
    (p : Int) (b so : Order)
    (hf : findPair (dictFind s.ltp ticker) s.buys s.sells = some (i, j, p))
    (hb : s.buys[i]? = some b) (hso : s.sells[j]? = some so)
    (hbal : (s.accounts b.account_id).balance ≥ min b.quantity so.quantity * p) :
    (doStep ticker s i j p).trades = s.trades ++
      [⟨ticker, p, min b.quantity so.quantity, b.account_id, so.account_id⟩] ∧
    (doStep ticker s i j p).buys =
      (if b.quantity - min b.quantity so.quantity = 0 then s.buys.eraseIdx i
       else s.buys.set i
         { b with quantity := b.quantity - min b.quantity so.quantity }) ∧
    (doStep ticker s i j p).sells =
      (if so.quantity - min b.quantity so.quantity = 0 then s.sells.eraseIdx j
       else s.sells.set j
         { so with quantity := so.quantity - min b.quantity so.quantity }) ∧
    sumQty (doStep ticker s i j p).buys + sumQty (doStep ticker s i j p).sells =
      sumQty s.buys + sumQty s.sells - 2 * min b.quantity so.quantity := by
  rw [doStep_eq hb hso, if_pos hbal]
  refine ⟨settleOk_trades, settleOk_buys, settleOk_sells, ?_⟩
  rw [settleOk_buys, settleOk_sells]
  have hbsum : sumQty (if b.quantity - min b.quantity so.quantity = 0
      then s.buys.eraseIdx i
      else s.buys.set i
        { b with quantity := b.quantity - min b.quantity so.quantity }) =
      sumQty s.buys - min b.quantity so.quantity := by
    split_ifs with hc
    · rw [sumQty_eraseIdx hb]; omega
    · rw [sumQty_set hb]; simp
  have hssum : sumQty (if so.quantity - min b.quantity so.quantity = 0
      then s.sells.eraseIdx j
      else s.sells.set j
        { so with quantity := so.quantity - min b.quantity so.quantity }) =
      sumQty s.sells - min b.quantity so.quantity := by
    split_ifs with hc
    · rw [sumQty_eraseIdx hso]; omega
    · rw [sumQty_set hso]; simp
  rw [hbsum, hssum]
  ring

/-- Witness for C5: scenario 2 of the spec, a 5-share buy against a 10-share
sell; 5 shares trade, the buy order is removed, the sell order keeps 5. -/
theorem C5_witness :
    findPair (dictFind c5state.ltp "XYZ") c5state.buys c5state.sells =
      some (0, 0, 100) ∧
    (doStep "XYZ" c5state 0 0 100).trades =
      [⟨"XYZ", 100, 5, 0, 1⟩] ∧
    sumQty (doStep "XYZ" c5state 0 0 100).buys +
      sumQty (doStep "XYZ" c5state 0 0 100).sells =
      sumQty c5state.buys + sumQty c5state.sells - 2 * 5 := by
  have h := C5_trade_quantities "XYZ" c5state 0 0 100
    (mkOrder 0 "buy" "limit" 5 (some 101) 0)
    (mkOrder 1 "sell" "limit" 10 (some 100) 1)
    (by decide) (by decide) (by decide) (by decide)
  refine ⟨by decide, ?_, ?_⟩
  · rw [h.1]; decide
  · rw [h.2.2.2]; decide

/-- A system holding one crossed limit/limit pair for "XYZ", both orders
submitted by account 0, which is well funded and well stocked. -/
def c2sys : Sys :=
  ⟨⟨[("XYZ", [mkOrder 0 "buy" "limit" 10 (some 100) 0])],
    [("XYZ", [mkOrder 0 "sell" "limit" 10 (some 90) 1])], []⟩, accsEx, []⟩

/-- C2 (counterexample): with every buyer's balance covering any match and
every seller's position covering its order, `match_orders` can still leave
a crossed pair of positive-quantity limit orders resting — when the two
orders belong to the same account, the self-trade guard skips them, so the
claim as stated fails on this input. -/
theorem C2_counterexample :
    (∀ b ∈ dictGetD c2sys.book.buy_orders "XYZ" [],
      ∀ so ∈ dictGetD c2sys.book.sell_orders "XYZ" [],
        min b.quantity so.quantity * priceOf so ≤ (c2sys.accounts b.account_id).balance ∧
        so.quantity ≤ dictGetD (c2sys.accounts so.account_id).positions "XYZ" 0) ∧
    ¬ (∀ b ∈ dictGetD (match_orders "XYZ" c2sys).book.buy_orders "XYZ" [],
        ∀ so ∈ dictGetD (match_orders "XYZ" c2sys).book.sell_orders "XYZ" [],
          b.order_type = "limit" → so.order_type = "limit" →
          0 < b.quantity → 0 < so.quantity →
          ∀ bp sp, b.price = some bp → so.price = some sp → bp < sp) := by
  constructor
  · decide
  · intro hall
    have h := hall (mkOrder 0 "buy" "limit" 10 (some 100) 0) (by decide)
      (mkOrder 0 "sell" "limit" 10 (some 90) 1) (by decide)
      (by decide) (by decide) (by decide) (by decide)
      100 90 (by decide) (by decide)
    omega

/-- C2 (amended): after `match_orders(ticker)` no two resting limit orders
with positive quantity on opposite sides of that ticker and belonging to
DIFFERENT accounts cross; this needs no balance or position hypothesis,
since a balance-rejected buy order is removed from the book. -/
theorem C2_no_cross_after_match (sys : Sys) (ticker : String) :
    ∀ b ∈ dictGetD (match_orders ticker sys).book.buy_orders ticker [],
    ∀ so ∈ dictGetD (match_orders ticker sys).book.sell_orders ticker [],
      b.account_id ≠ so.account_id →
      b.order_type = "limit" → so.order_type = "limit" →
      0 < b.quantity → 0 < so.quantity →
      ∀ bp sp, b.price = some bp → so.price = some sp → bp < sp := by
  intro b hbmem so hsmem hne hbt hst hbq hsq bp sp hbp hsp
  rw [match_orders] at hbmem hsmem
  simp only [dictGetD_dictSet_self] at hbmem hsmem
  have hnp := @matchLoop_noPair ticker
    ((sortOrders buyLe (dictGetD sys.book.buy_orders ticker [])).length +
     (sortOrders sellLe (dictGetD sys.book.sell_orders ticker [])).length)
    ⟨sortOrders buyLe (dictGetD sys.book.buy_orders ticker []),
     sortOrders sellLe (dictGetD sys.book.sell_orders ticker []),
     sys.book.last_trade_price, sys.accounts, sys.trades⟩ (le_refl _)
  exact noPair_noCross hnp b hbmem so hsmem hne hbt hst bp sp hbp hsp

/-- A system with one non-crossed limit pair from different accounts. -/
def c2wsys : Sys :=
  ⟨⟨[("XYZ", [mkOrder 0 "buy" "limit" 10 (some 90) 0])],
    [("XYZ", [mkOrder 1 "sell" "limit" 10 (some 100) 1])], []⟩, accsEx, []⟩

/-- Witness for the amended C2: both orders of a non-crossed pair survive
matching and the theorem yields 90 < 100. -/
theorem C2_witness :
    mkOrder 0 "buy" "limit" 10 (some 90) 0 ∈
      dictGetD (match_orders "XYZ" c2wsys).book.buy_orders "XYZ" [] ∧
    mkOrder 1 "sell" "limit" 10 (some 100) 1 ∈
      dictGetD (match_orders "XYZ" c2wsys).book.sell_orders "XYZ" [] ∧
    (90 : Int) < 100 :=
  ⟨by decide, by decide,
    C2_no_cross_after_match c2wsys "XYZ"
      (mkOrder 0 "buy" "limit" 10 (some 90) 0) (by decide)
      (mkOrder 1 "sell" "limit" 10 (some 100) 1) (by decide)
      (by decide) (by decide) (by decide) (by decide) (by decide)
      90 100 (by decide) (by decide)⟩

/-- C8: `match_orders` terminates on every book state whose resting orders
all have positive quantity: with fuel equal to the number of resting orders
on the ticker's two sides (the fuel `match_orders` itself uses), the loop
has already reached its exit condition — any extra fuel leaves the result
unchanged, and in the result either a side is empty or no pair satisfies
the price/type/self-trade rules. -/
theorem C8_termination (ticker : String) (s : MState)
    (hq : ∀ o, o ∈ s.buys ++ s.sells → 0 < o.quantity)
    (fuel : Nat) (hfuel : s.buys.length + s.sells.length ≤ fuel) :
    matchLoop ticker fuel s =
      matchLoop ticker (s.buys.length + s.sells.length) s ∧
    noPairState ticker (matchLoop ticker fuel s) := by
  have hsplit : fuel = (s.buys.length + s.sells.length) +
      (fuel - (s.buys.length + s.sells.length)) := by omega
  constructor
  · rw [hsplit]
    exact matchLoop_fuel _ s _ (le_refl _)
  · exact matchLoop_noPair fuel s hfuel

/-- Witness for C8: a two-order state; fuel 5 (exceeding the loop's own 2)
gives the same result, which satisfies the exit condition. -/
theorem C8_witness :
    (∀ o, o ∈ c5state.buys ++ c5state.sells → 0 < o.quantity) ∧
    c5state.buys.length + c5state.sells.length ≤ 5 ∧
    matchLoop "XYZ" 5 c5state =
      matchLoop "XYZ" (c5state.buys.length + c5state.sells.length) c5state ∧
    noPairState "XYZ" (matchLoop "XYZ" 5 c5state) :=
  ⟨by decide, by decide,
    C8_termination "XYZ" c5state (by decide) 5 (by decide)⟩

theorem map_deser_ser {enc : Nat → String} {dec : String → Nat}
    (h : ∀ n, dec (enc n) = n) (os : List Order) :
    (os.map (serialize_order enc)).map (deserialize_order dec) = os := by
  induction os with
  | nil => rfl
  | cons o rest ih => simp [ih, deserialize_serialize h]

theorem dict_deser_ser {enc : Nat → String} {dec : String → Nat}
    (h : ∀ n, dec (enc n) = n) (d : List (String × List Order)) :
    (d.map (fun kv => (kv.1, kv.2.map (serialize_order enc)))).map
      (fun kv => (kv.1, kv.2.map (deserialize_order dec))) = d := by
  induction d with
  | nil => rfl
  | cons kv rest ih =>
    obtain ⟨k, os⟩ := kv
    simp only [List.map_cons, ih]
    rw [map_deser_ser h]

/-- C9: serializing the unmatched-orders snapshot and reloading it
reproduces identical orders — all fields, the timestamp included, and the
relative order within each ticker/side — for any timestamp codec whose
decode inverts its encode (as ISO-8601 round-tripping does). -/
theorem C9_roundtrip (enc : Nat → String) (dec : String → Nat)
    (h : ∀ n, dec (enc n) = n) (bk : OrderBook) :
    load_unmatched_orders dec (save_unmatched_orders enc bk) =
      (bk.buy_orders, bk.sell_orders) := by
  unfold load_unmatched_orders save_unmatched_orders
  rw [dict_deser_ser h, dict_deser_ser h]

/-- A concrete injective timestamp encoder with its decoder, standing in for
`datetime.isoformat` / `datetime.fromisoformat` in the witness. -/
def encW (n : Nat) : String := String.mk (List.replicate n 'a')

def decW (s : String) : Nat := s.length

/-- A mixed two-ticker book with market and limit orders on both sides. -/
def c9book : OrderBook :=
  ⟨[("XYZ", [mkOrder 0 "buy" "limit" 5 (some 80) 0, mkOrder 1 "buy" "market" 3 none 1]),
    ("ABC", [mkOrder 1 "buy" "limit" 2 (some 7) 2])],
   [("XYZ", [mkOrder 1 "sell" "limit" 4 (some 95) 3]),
    ("ABC", [mkOrder 0 "sell" "market" 6 none 4])],
   [("XYZ", 90)]⟩

/-- Witness for C9: the concrete codec round-trips and the mixed book
reloads unchanged. -/
theorem C9_witness :
    (∀ n, decW (encW n) = n) ∧
    load_unmatched_orders decW (save_unmatched_orders encW c9book) =
      (c9book.buy_orders, c9book.sell_orders) :=
  ⟨fun n => by show (List.replicate n 'a').length = n; simp,
   C9_roundtrip encW decW
     (fun n => by show (List.replicate n 'a').length = n; simp) c9book⟩

/-- C10: an order passing the quantity and type validations whose `action`
is neither buy nor sell is reported as added (`add_order` returns success)
yet lands in no collection: the book is unchanged. -/
theorem C10_invalid_action_dropped (o : Order) (accs : AccountMgr)
    (bk : OrderBook) (hq : 0 < o.quantity)
    (hty : o.order_type = "market" ∨
      (o.order_type = "limit" ∧ ∃ p, o.price = some p ∧ 0 < p))
    (hba : o.action ≠ "buy") (hsa : o.action ≠ "sell") :
    add_order o accs bk = (true, bk) := by
  have h1 : ¬ o.quantity ≤ 0 := by omega
  have h2 : ¬ ¬ (o.order_type = "market" ∨ o.order_type = "limit") := by
    rcases hty with hm | ⟨hl, _⟩
    · exact fun hc => hc (Or.inl hm)
    · exact fun hc => hc (Or.inr hl)
  have h3 : ¬ (o.order_type = "limit" ∧ limitPriceBad o.price) := by
    rintro ⟨hl, hbad⟩
    rcases hty with hm | ⟨_, p, hp, hpos⟩
    · rw [hm] at hl
      simp at hl
    · rw [hp, limitPriceBad] at hbad
      simp at hbad
      omega
  have h4 : ¬ (o.action = "sell" ∧
      dictGetD (accs o.account_id).positions o.ticker 0 < o.quantity) := by
    rintro ⟨hc, _⟩
    exact hsa hc
  simp only [add_order]
  rw [if_neg h1, if_neg h2, if_neg h3, if_neg h4, if_neg hba, if_neg hsa]

def c10order : Order := mkOrder 0 "cancel" "market" 5 none 3

/-- Witness for C10: a market order with action "cancel" is accepted and
silently dropped. -/
theorem C10_witness :
    0 < c10order.quantity ∧ c10order.action ≠ "buy" ∧ c10order.action ≠ "sell" ∧
    add_order c10order accsEx ⟨[], [], []⟩ = (true, ⟨[], [], []⟩) :=
  ⟨by decide, by decide, by decide,
   C10_invalid_action_dropped c10order accsEx ⟨[], [], []⟩ (by decide)
     (Or.inl rfl) (by decide) (by decide)⟩

/-- C7: `get_best_price` returns, for a buy lookup, the minimum price among
resting sell limit orders for the ticker when one exists; for a sell
lookup, the maximum price among resting buy limit orders; and with no
qualifying limit order it falls back to the last recorded trade price,
and failing that to the externally supplied initial price. -/
theorem C7_best_price (ip : String → Int) (bk : OrderBook) (ticker : String) :
    (((dictGetD bk.sell_orders ticker []).filter
        (fun o => o.order_type == "limit")) ≠ [] →
      get_best_price ip bk "buy" ticker ∈
        ((dictGetD bk.sell_orders ticker []).filter
          (fun o => o.order_type == "limit")).map priceOf ∧
      ∀ x ∈ ((dictGetD bk.sell_orders ticker []).filter
          (fun o => o.order_type == "limit")).map priceOf,
        get_best_price ip bk "buy" ticker ≤ x) ∧
    (((dictGetD bk.buy_orders ticker []).filter
        (fun o => o.order_type == "limit")) ≠ [] →
      get_best_price ip bk "sell" ticker ∈
        ((dictGetD bk.buy_orders ticker []).filter
          (fun o => o.order_type == "limit")).map priceOf ∧
      ∀ x ∈ ((dictGetD bk.buy_orders ticker []).filter
          (fun o => o.order_type == "limit")).map priceOf,
        x ≤ get_best_price ip bk "sell" ticker) ∧
    (((dictGetD bk.sell_orders ticker []).filter
        (fun o => o.order_type == "limit")) = [] →
      get_best_price ip bk "buy" ticker =
        (dictFind bk.last_trade_price ticker).getD (ip ticker)) ∧
    (((dictGetD bk.buy_orders ticker []).filter
        (fun o => o.order_type == "limit")) = [] →
      get_best_price ip bk "sell" ticker =
        (dictFind bk.last_trade_price ticker).getD (ip ticker)) := by
  refine ⟨?_, ?_, ?_, ?_⟩
  · intro hne
    cases hmin : listMin (((dictGetD bk.sell_orders ticker []).filter
        (fun o => o.order_type == "limit")).map priceOf) with
    | none =>
      have := listMin_eq_none.mp hmin
      rw [List.map_eq_nil_iff] at this
      exact absurd this hne
    | some m =>
      have hspec := listMin_spec hmin
      have hres : get_best_price ip bk "buy" ticker = m := by
        simp only [get_best_price]
        rw [if_pos trivial, hmin]
      rw [hres]
      exact hspec
  · intro hne
    cases hmax : listMax (((dictGetD bk.buy_orders ticker []).filter
        (fun o => o.order_type == "limit")).map priceOf) with
    | none =>
      have := listMax_eq_none.mp hmax
      rw [List.map_eq_nil_iff] at this
      exact absurd this hne
    | some m =>
      have hspec := listMax_spec hmax
      have hres : get_best_price ip bk "sell" ticker = m := by
        simp only [get_best_price]
        rw [if_pos trivial, hmax, if_neg (by decide)]
      rw [hres]
      exact hspec
  · intro hemp
    have hmin : listMin (((dictGetD bk.sell_orders ticker []).filter
        (fun o => o.order_type == "limit")).map priceOf) = none := by
      rw [hemp]
      rfl
    simp only [get_best_price]
    rw [if_pos trivial, hmin]
  · intro hemp
    have hmax : listMax (((dictGetD bk.buy_orders ticker []).filter
        (fun o => o.order_type == "limit")).map priceOf) = none := by
      rw [hemp]
      rfl
    simp only [get_best_price]
    rw [if_pos trivial, hmax, if_neg (by decide)]

def c7book : OrderBook :=
  ⟨[("XYZ", [mkOrder 0 "buy" "limit" 5 (some 80) 0,
             mkOrder 1 "buy" "limit" 5 (some 85) 1,
             mkOrder 1 "buy" "market" 5 none 2])],
   [("XYZ", [mkOrder 1 "sell" "limit" 5 (some 100) 3,
             mkOrder 0 "sell" "limit" 5 (some 95) 4])],
   []⟩

/-- Witness for C7: on a book with sell limits 100 and 95 and buy limits 80
and 85, the buy lookup returns 95 and the sell lookup 85, with the claimed
extremal properties. -/
theorem C7_witness :
    ((dictGetD c7book.sell_orders "XYZ" []).filter
      (fun o => o.order_type == "limit")) ≠ [] ∧
    get_best_price (fun _ => 42) c7book "buy" "XYZ" ∈
      ((dictGetD c7book.sell_orders "XYZ" []).filter
        (fun o => o.order_type == "limit")).map priceOf ∧
    ∀ x ∈ ((dictGetD c7book.sell_orders "XYZ" []).filter
        (fun o => o.order_type == "limit")).map priceOf,
      get_best_price (fun _ => 42) c7book "buy" "XYZ" ≤ x :=
  ⟨by decide,
   ((C7_best_price (fun _ => 42) c7book "XYZ").1 (by decide)).1,
   ((C7_best_price (fun _ => 42) c7book "XYZ").1 (by decide)).2⟩

/-- C6: `add_order` rejects — returning failure with the book (both sides,
all tickers, and the last-trade-price table) unchanged — exactly when the
quantity is non-positive, or the order type is neither market nor limit,
or a limit order's price is absent or non-positive, or a sell exceeds the
submitting account's position in the ticker; otherwise it returns success
and appends the order to the tail of its side/ticker collection, leaving
the other side and the price table untouched. -/
theorem C6_add_order_validation (o : Order) (accs : AccountMgr) (bk : OrderBook) :
    ((add_order o accs bk).1 = false ↔
      (o.quantity ≤ 0 ∨
       ¬ (o.order_type = "market" ∨ o.order_type = "limit") ∨
       (o.order_type = "limit" ∧
         (o.price = none ∨ ∃ p, o.price = some p ∧ p ≤ 0)) ∨
       (o.action = "sell" ∧
         dictGetD (accs o.account_id).positions o.ticker 0 < o.quantity))) ∧
    ((add_order o accs bk).1 = false → (add_order o accs bk).2 = bk) ∧
    ((add_order o accs bk).1 = true → o.action = "buy" →
      (add_order o accs bk).2 =
        { bk with buy_orders :=
                    dictSet bk.buy_orders o.ticker
                      (dictGetD bk.buy_orders o.ticker [] ++ [o]) }) ∧
    ((add_order o accs bk).1 = true → o.action = "sell" →
      (add_order o accs bk).2 =
        { bk with sell_orders :=
                    dictSet bk.sell_orders o.ticker
                      (dictGetD bk.sell_orders o.ticker [] ++ [o]) }) := by
  have hlpb : (o.order_type = "limit" ∧ limitPriceBad o.price) ↔
      (o.order_type = "limit" ∧
        (o.price = none ∨ ∃ p, o.price = some p ∧ p ≤ 0)) := by
    constructor
    · rintro ⟨hl, hb⟩
      exact ⟨hl, limitPriceBad_iff.mp hb⟩
    · rintro ⟨hl, hb⟩
      exact ⟨hl, limitPriceBad_iff.mpr hb⟩
  simp only [add_order]
  by_cases h1 : o.quantity ≤ 0
  · rw [if_pos h1]
    refine ⟨by simp [h1], fun _ => rfl, ?_, ?_⟩ <;> (intro hc; simp at hc)
  · rw [if_neg h1]
    by_cases h2 : ¬ (o.order_type = "market" ∨ o.order_type = "limit")
    · rw [if_pos h2]
      refine ⟨by simp [h2], fun _ => rfl, ?_, ?_⟩ <;> (intro hc; simp at hc)
    · rw [if_neg h2]
      by_cases h3 : o.order_type = "limit" ∧ limitPriceBad o.price
      · rw [if_pos h3]
        refine ⟨by simp [h1, hlpb.mp h3], fun _ => rfl, ?_, ?_⟩ <;>
          (intro hc; simp at hc)
      · rw [if_neg h3]
        by_cases h4 : o.action = "sell" ∧
            dictGetD (accs o.account_id).positions o.ticker 0 < o.quantity
        · rw [if_pos h4]
          refine ⟨by simp [h4], fun _ => rfl, ?_, ?_⟩ <;> (intro hc; simp at hc)
        · rw [if_neg h4]
          refine ⟨?_, ?_, ?_, ?_⟩
          · constructor
            · intro hc
              simp at hc
            · rintro (hA | hB | hC | hD)
              · exact absurd hA h1
              · exact absurd hB h2
              · exact absurd (hlpb.mpr hC) h3
              · exact absurd hD h4
          · intro hc
            simp at hc
          · intro _ hbuy
            rw [if_pos hbuy]
          · intro _ hsell
            have hnb : ¬ o.action = "buy" := by
              rw [hsell]
              simp
            rw [if_neg hnb, if_pos hsell]

/-- Witness for C6: a valid buy limit order is accepted and appended; an
oversized sell is rejected with the book unchanged. -/
theorem C6_witness :
    ((add_order (mkOrder 0 "buy" "limit" 10 (some 100) 0) accsEx
        ⟨[], [], []⟩).1 = true) ∧
    (add_order (mkOrder 0 "buy" "limit" 10 (some 100) 0) accsEx
        ⟨[], [], []⟩).2 =
      { buy_orders := dictSet ([] : List (String × List Order)) "XYZ"
          (dictGetD ([] : List (String × List Order)) "XYZ" [] ++
            [mkOrder 0 "buy" "limit" 10 (some 100) 0]),
        sell_orders := [], last_trade_price := [] } :=
  ⟨by decide,
   (C6_add_order_validation (mkOrder 0 "buy" "limit" 10 (some 100) 0) accsEx
      ⟨[], [], []⟩).2.2.1 (by decide) (by decide)⟩

end OrderMatching
